import Mathlib

/-!
Verification of the NI_DAQ instrument-driver adapter
(`qtlab_013/instrument_plugins/NI_DAQ.py`).

Strings are modelled as `List Char` (Python `str`), floats as `ℚ`
(the adapter only multiplies and divides by 1000 and takes a
reciprocal, so exact rationals model the intended arithmetic),
Python `dict` as a cons-front association list whose lookup takes
the most recently inserted binding, and the opaque vendor binding
`nidaq` as a structure of uninterpreted functions (an oracle).
Calls into the binding are recorded as `HWCall` events, so that
theorems can speak about which hardware calls a method performs
and with which arguments.
-/

set_option linter.unusedVariables false

namespace NIDAQ

/-- Model of the Python method `str.split(sep)` for a one-character
separator, on the character-list model of strings: the empty string
splits into a list holding one empty chunk, and each occurrence of
the separator starts a new (possibly empty) chunk. -/
def pySplit (sep : Char) : List Char → List (List Char)
  | [] => [[]]
  | c :: cs =>
    match pySplit sep cs with
    | [] => [[]]
    | p :: ps => if c = sep then [] :: p :: ps else (c :: p) :: ps

/-- Model of `_get_channel(devchan)` (NI_DAQ.py lines 26-32): return `devchan`
unchanged when it contains no slash; split on the slash and return
the second part when the split has exactly two parts; otherwise
return `devchan` unchanged. -/
def get_channel (devchan : List Char) : List Char :=
  if '/' ∉ devchan then devchan
  else
    let parts := pySplit '/' devchan
    if parts.length ≠ 2 then devchan
    else parts.getD 1 devchan

theorem pySplit_length (sep : Char) (l : List Char) :
    (pySplit sep l).length = l.count sep + 1 := by
  induction l with
  | nil => rfl
  | cons c cs ih =>
    cases h : pySplit sep cs with
    | nil => rw [h] at ih; simp at ih
    | cons p ps =>
      rw [h] at ih
      by_cases hc : c = sep
      · simp only [pySplit, h, if_pos hc, List.length_cons] at *
        subst hc
        simp [List.count_cons, ih]
      · simp only [pySplit, h, if_neg hc, List.length_cons] at *
        simp [List.count_cons, hc, ih]

theorem pySplit_no_sep (sep : Char) (l : List Char) (h : sep ∉ l) :
    pySplit sep l = [l] := by
  induction l with
  | nil => rfl
  | cons c cs ih =>
    have hc : c ≠ sep := fun hcs => h (hcs ▸ List.mem_cons_self c cs)
    have hcs : sep ∉ cs := fun hm => h (List.mem_cons_of_mem c hm)
    simp only [pySplit, ih hcs, if_neg hc]

theorem pySplit_append (sep : Char) (X Y : List Char) (hX : sep ∉ X) :
    pySplit sep (X ++ sep :: Y) = X :: pySplit sep Y := by
  induction X with
  | nil =>
    cases h : pySplit sep Y with
    | nil =>
      have := pySplit_length sep Y
      rw [h] at this
      simp at this
    | cons p ps => simp [pySplit, h]
  | cons c cs ih =>
    have hc : c ≠ sep := fun hcs => hX (hcs ▸ List.mem_cons_self c cs)
    have hcs : sep ∉ cs := fun hm => hX (List.mem_cons_of_mem c hm)
    simp only [List.cons_append, pySplit, List.append_eq, ih hcs, if_neg hc]

/-- C2: `_get_channel` returns its input unchanged when it contains no
separator; returns the part after the separator on a string of the
form `X/Y` with exactly one separator; and returns the input
unchanged when it contains more than one separator. -/
theorem get_channel_spec (s t X Y : List Char)
    (hX : '/' ∉ X) (hY : '/' ∉ Y) :
    ('/' ∉ s → get_channel s = s) ∧
    get_channel (X ++ '/' :: Y) = Y ∧
    (1 < t.count '/' → get_channel t = t) := by
  refine ⟨fun h => by simp only [get_channel, if_pos h], ?_, ?_⟩
  · have hmem : '/' ∈ X ++ '/' :: Y :=
      List.mem_append_right X (List.mem_cons_self '/' Y)
    have hsplit : pySplit '/' (X ++ '/' :: Y) = [X, Y] := by
      rw [pySplit_append '/' X Y hX, pySplit_no_sep '/' Y hY]
    simp only [get_channel, hmem, not_true, if_false, hsplit]
    rfl
  · intro hcount
    have hmem : '/' ∈ t := by
      have : 0 < t.count '/' := Nat.lt_of_lt_of_le Nat.one_pos (Nat.le_of_lt hcount)
      exact List.count_pos_iff.mp this
    have hlen : (pySplit '/' t).length ≠ 2 := by
      rw [pySplit_length]
      omega
    simp only [get_channel, hmem, not_true, if_false]
    rw [if_pos hlen]

/-- Witness for C2 at concrete strings: `"abc"` has no separator,
`"Dev1/ai0"` has exactly one, `"a/b/c"` has two. -/
theorem get_channel_spec_witness :
    get_channel ("abc".data) = "abc".data ∧
    get_channel (("Dev1".data) ++ '/' :: ("ai0".data)) = "ai0".data ∧
    get_channel ("a/b/c".data) = "a/b/c".data := by
  have h := get_channel_spec ("abc".data) ("a/b/c".data) ("Dev1".data) ("ai0".data)
    (by decide) (by decide)
  exact ⟨h.1 (by decide), h.2.1, h.2.2 (by decide)⟩

/-- A Python value held in the output cache `self._output`: the
constructor seeds entries with the millivolt array returned by
`do_get_input`, while `do_set_output` stores the scalar millivolt
value it was given. -/
inductive PyVal where
  | num (q : ℚ)
  | arr (xs : List ℚ)
deriving DecidableEq

/-- Python dict lookup on a cons-front association list: the most
recently inserted binding for a key wins (dict assignment is
modelled by consing the new binding at the front). -/
def dictFind : List (List Char × PyVal) → List Char → Option PyVal
  | [], _ => none
  | (k, v) :: rest, key => if k = key then some v else dictFind rest key

/-- A call into the vendor `nidaq` binding, with the arguments passed. -/
inductive HWCall where
  | read (devchan : List Char) (config : List Char) (samples : Int) (freq : ℚ)
      (averaging : Bool) (minv : ℚ) (maxv : ℚ) (triggered : Bool)
      (trigger_slope : List Char) (pre_trig_samples : Int)
  | write (devchan : List Char) (value : ℚ)
  | read_counter (devchan : List Char) (src : Option (List Char)) (freq : ℚ)
deriving DecidableEq

/-- The opaque vendor binding `lib.dll_support.nidaq`, modelled as an
oracle: the return value of each primitive is an uninterpreted
function of the arguments passed. -/
structure Nidaq where
  read : List Char → List Char → Int → ℚ → Bool → ℚ → ℚ → Bool →
    List Char → Int → List ℚ
  write : List Char → ℚ → Int
  read_counter : List Char → Option (List Char) → ℚ → Int
  get_physical_input_channels : List Char → List (List Char)
  get_physical_output_channels : List Char → List (List Char)

/-- The mutable state of an `NI_DAQ` adapter instance: the device id,
the scalar configuration fields and the output cache `self._output`. -/
structure DAQState where
  _id : List Char
  _samples : Int
  _freq : ℚ
  _count_time : ℚ
  _chan_config : List Char
  _pre_trigger_samples : Int
  _output : List (List Char × PyVal)
deriving DecidableEq

/-- Model of `do_get_input` (lines 188-214): build `devchan = "<id>/<channel>"`,
store the `pre_trigger_samples` argument into
`self._pre_trigger_samples` BEFORE validating, raise `ValueError`
(modelled as `Except.error ()`) when the stored count is below 2 or
`self._samples` is below it plus 2, and otherwise return the vendor
`read` result scaled elementwise by 1000 (volts to millivolts).
Returns (new state, result, hardware calls made). -/
def do_get_input (nd : Nidaq) (st : DAQState) (channel : List Char)
    (average : Bool) (minvol : ℚ) (maxvol : ℚ) (trigger : Bool)
    (trig_slope : List Char) (pre_trigger_samples : Int) :
    DAQState × Except Unit (List ℚ) × List HWCall :=
  let devchan := st._id ++ '/' :: channel
  let st1 := { st with _pre_trigger_samples := pre_trigger_samples }
  if st1._pre_trigger_samples < 2 then
    (st1, Except.error (), [])
  else if st1._samples < st1._pre_trigger_samples + 2 then
    (st1, Except.error (), [])
  else
    (st1,
     Except.ok ((nd.read devchan st1._chan_config st1._samples st1._freq
        average minvol maxvol trigger trig_slope pre_trigger_samples).map
          (fun v => v * 1000)),
     [HWCall.read devchan st1._chan_config st1._samples st1._freq
        average minvol maxvol trigger trig_slope pre_trigger_samples])

/-- Model of `do_set_output` (lines 233-236): record the millivolt value
in the output cache under the bare channel name, then write
`val / 1000` volts to `"<id>/<channel>"`; the result of the vendor
write is returned. -/
def do_set_output (nd : Nidaq) (st : DAQState) (val : ℚ) (channel : List Char) :
    DAQState × Int × List HWCall :=
  let devchan := st._id ++ '/' :: channel
  ({ st with _output := (channel, PyVal.num val) :: st._output },
   nd.write devchan (val / 1000),
   [HWCall.write devchan (val / 1000)])

/-- Model of `do_get_output` (lines 238-239): read the cached value for the
channel; no hardware call is made. -/
def do_get_output (st : DAQState) (channel : List Char) :
    Option PyVal × List HWCall :=
  (dictFind st._output channel, [])

/-- Model of `do_get_counter` (lines 247-252). `srcCache` models
`self.get(channel + "_src")`: the soft-get of the source parameter
of the counter, `none` when it was never set. A non-empty source is
recomposed by the format `"/%s/%s" % (self._id, src)`; the count
frequency is `1 / self._count_time`. -/
def do_get_counter (nd : Nidaq) (st : DAQState) (channel : List Char)
    (srcCache : Option (List Char)) : Int × List HWCall :=
  let devchan := st._id ++ '/' :: channel
  let src : Option (List Char) :=
    match srcCache with
    | none => none
    | some s => if s ≠ [] then some ('/' :: (st._id ++ '/' :: s)) else some s
  (nd.read_counter devchan src (1 / st._count_time),
   [HWCall.read_counter devchan src (1 / st._count_time)])

/-- The declared option list of the `chan_config` parameter (line 78). -/
def chan_config_option_list : List (List Char) :=
  ["Default".data, "RSE".data, "NRSE".data, "Diff".data, "PseudoDiff".data]

/-- Model of `_get_input_channels` (lines 175-180): the physical input
channels, halved (Python 2 floor-dividing slice) when the configured
channel mode equals the literal `"DIFF"`. -/
def get_input_channels (nd : Nidaq) (st : DAQState) : List (List Char) :=
  let physical_input_channels := nd.get_physical_input_channels st._id
  if st._chan_config = "DIFF".data then
    physical_input_channels.take (physical_input_channels.length / 2)
  else
    physical_input_channels

/-- The wiring substitution of the constructor (lines 153-155): in the output
channel name replace every 'o' with 'i', then every '0' with '6',
then every '1' with '7' (each a Python one-character `str.replace`). -/
def wired_input (ch_out : List Char) : List Char :=
  ((ch_out.map (fun c => if c = 'o' then 'i' else c)).map
      (fun c => if c = '0' then '6' else c)).map
    (fun c => if c = '1' then '7' else c)

/-- The millivolt array `do_get_input` returns for `channel` from state
`st` with the default optional arguments of the method, when the
validation passes. -/
def input_read_value (nd : Nidaq) (st : DAQState) (channel : List Char) : List ℚ :=
  (nd.read (st._id ++ '/' :: channel) st._chan_config st._samples st._freq
    true (-10) 10 false ("POS".data) 2).map (fun v => v * 1000)

/-- The constructor loop body (lines 151-156) over the output channels:
`self._output[ch_out] = self.do_get_input(_ch_in)` with the default
optional arguments of `do_get_input`; a raised `ValueError` aborts
construction. -/
def seed_loop (nd : Nidaq) : List (List Char) → DAQState → Except Unit DAQState
  | [], s => Except.ok s
  | ch :: rest, s =>
    let ch_out := get_channel ch
    let r := do_get_input nd s (wired_input ch_out) true (-10) 10 false
      ("POS".data) 2
    match r.2.1 with
    | Except.error e => Except.error e
    | Except.ok vals =>
      seed_loop nd rest
        { r.1 with _output := (ch_out, PyVal.arr vals) :: r.1._output }

/-- Lines 150-157 of the constructor: the output cache is reset to the
empty dict, then the seeding loop runs over
`self._get_output_channels()`. -/
def seed_output_cache (nd : Nidaq) (st : DAQState) : Except Unit DAQState :=
  seed_loop nd (nd.get_physical_output_channels st._id)
    { st with _output := [] }

/-- A concrete oracle used by the witnesses: reads return `[0, 1]`
volts, writes return 0, counter reads return 5. -/
def testNidaq : Nidaq where
  read := fun _ _ _ _ _ _ _ _ _ _ => [0, 1]
  write := fun _ _ => 0
  read_counter := fun _ _ _ => 5
  get_physical_input_channels := fun _ => ["Dev1/ai0".data, "Dev1/ai1".data]
  get_physical_output_channels := fun _ => ["Dev1/ao0".data, "Dev1/ao1".data]

/-- A concrete adapter state used by the witnesses, as the constructor
would leave it for device `"Dev1"` with the default arguments. -/
def testState : DAQState where
  _id := "Dev1".data
  _samples := 100
  _freq := 10000
  _count_time := 1/10
  _chan_config := "Diff".data
  _pre_trigger_samples := 2
  _output := []

theorem testState_recip_count_time : (1 / testState._count_time : ℚ) = 10 := by
  show (1 : ℚ) / (1 / 10) = 10
  simp

theorem read_counter_call_congr (a b : List Char) (c d : Option (List Char))
    (e f : ℚ) (h1 : a = b) (h2 : c = d) (h3 : e = f) :
    [HWCall.read_counter a c e] = [HWCall.read_counter b d f] := by
  rw [h1, h2, h3]

/-- C1: `do_get_input` raises a `ValueError` exactly when the
`pre_trigger_samples` argument is below 2 or the configured
`_samples` is below `pre_trigger_samples + 2`; for every other
combination of the remaining arguments no validation error is
raised. -/
theorem do_get_input_valueerror_iff (nd : Nidaq) (st : DAQState)
    (channel : List Char) (average : Bool) (minvol maxvol : ℚ)
    (trigger : Bool) (trig_slope : List Char) (pre : Int) :
    (do_get_input nd st channel average minvol maxvol trigger trig_slope
        pre).2.1 = Except.error ()
      ↔ (pre < 2 ∨ st._samples < pre + 2) := by
  by_cases h1 : pre < 2
  · simp [do_get_input, h1]
  · by_cases h2 : st._samples < pre + 2 <;> simp [do_get_input, h1, h2]

/-- C6: whenever the validation in `do_get_input` passes, its result is the
vendor read result scaled elementwise by exactly 1000. -/
theorem do_get_input_scales_by_1000 (nd : Nidaq) (st : DAQState)
    (channel : List Char) (average : Bool) (minvol maxvol : ℚ)
    (trigger : Bool) (trig_slope : List Char) (pre : Int)
    (h1 : ¬ pre < 2) (h2 : ¬ st._samples < pre + 2) :
    (do_get_input nd st channel average minvol maxvol trigger trig_slope
        pre).2.1
      = Except.ok ((nd.read (st._id ++ '/' :: channel) st._chan_config
          st._samples st._freq average minvol maxvol trigger trig_slope
          pre).map (fun v => v * 1000)) := by
  simp [do_get_input, h1, h2]

/-- Witness for C6: a concrete passing read returns `[0, 1000]` mV
for a vendor read of `[0, 1]` V. -/
theorem do_get_input_scales_by_1000_witness :
    (do_get_input testNidaq testState ("ai0".data) true (-10) 10 false
        ("POS".data) 2).2.1 = Except.ok [0, 1000] := by
  have h := do_get_input_scales_by_1000 testNidaq testState ("ai0".data)
    true (-10) 10 false ("POS".data) 2 (by decide) (by decide)
  rw [h]
  exact congrArg Except.ok (by simp [testNidaq])

/-- C4: commanding an output value and reading it back returns exactly
the commanded value, and the read performs no hardware call. -/
theorem output_roundtrip (nd : Nidaq) (st : DAQState) (val : ℚ)
    (channel : List Char) :
    do_get_output (do_set_output nd st val channel).1 channel
      = (some (PyVal.num val), []) := by
  simp [do_get_output, do_set_output, dictFind]

/-- C5: `do_set_output` caches the millivolt value under the channel
key, performs exactly one vendor write of `val / 1000` volts to
`"<id>/<channel>"`, and returns the result of that write. -/
theorem do_set_output_spec (nd : Nidaq) (st : DAQState) (val : ℚ)
    (channel : List Char) :
    dictFind (do_set_output nd st val channel).1._output channel
        = some (PyVal.num val) ∧
    (do_set_output nd st val channel).2.1
        = nd.write (st._id ++ '/' :: channel) (val / 1000) ∧
    (do_set_output nd st val channel).2.2
        = [HWCall.write (st._id ++ '/' :: channel) (val / 1000)] := by
  refine ⟨?_, rfl, rfl⟩
  simp [do_set_output, dictFind]

/-- C9: `do_set_output` modifies the output cache only at its channel:
the lookup at any other key and every scalar configuration field
are unchanged by the call. -/
theorem do_set_output_frame (nd : Nidaq) (st : DAQState) (val : ℚ)
    (channel other : List Char) (h : other ≠ channel) :
    dictFind (do_set_output nd st val channel).1._output other
        = dictFind st._output other ∧
    (do_set_output nd st val channel).1._samples = st._samples ∧
    (do_set_output nd st val channel).1._freq = st._freq ∧
    (do_set_output nd st val channel).1._count_time = st._count_time ∧
    (do_set_output nd st val channel).1._chan_config = st._chan_config ∧
    (do_set_output nd st val channel).1._pre_trigger_samples
        = st._pre_trigger_samples ∧
    (do_set_output nd st val channel).1._id = st._id := by
  refine ⟨?_, rfl, rfl, rfl, rfl, rfl, rfl⟩
  have h2 : channel ≠ other := fun hh => h hh.symm
  simp [do_set_output, dictFind, h2]

/-- Witness for C9 at a concrete state and two distinct channels. -/
theorem do_set_output_frame_witness :
    dictFind (do_set_output testNidaq testState 2500 ("ao0".data)).1._output
        ("ao1".data) = dictFind testState._output ("ao1".data) ∧
    (do_set_output testNidaq testState 2500 ("ao0".data)).1._samples
        = testState._samples ∧
    (do_set_output testNidaq testState 2500 ("ao0".data)).1._freq
        = testState._freq ∧
    (do_set_output testNidaq testState 2500 ("ao0".data)).1._count_time
        = testState._count_time ∧
    (do_set_output testNidaq testState 2500 ("ao0".data)).1._chan_config
        = testState._chan_config ∧
    (do_set_output testNidaq testState 2500 ("ao0".data)).1._pre_trigger_samples
        = testState._pre_trigger_samples ∧
    (do_set_output testNidaq testState 2500 ("ao0".data)).1._id
        = testState._id :=
  do_set_output_frame testNidaq testState 2500 ("ao0".data) ("ao1".data)
    (by decide)

/-- C10: `do_get_input` assigns the `pre_trigger_samples` argument to
the stored field before validation, so a failing call raises the
`ValueError` and still leaves `_pre_trigger_samples` equal to the
invalid argument: the error path is not atomic. -/
theorem do_get_input_not_atomic (nd : Nidaq) (st : DAQState)
    (channel : List Char) (average : Bool) (minvol maxvol : ℚ)
    (trigger : Bool) (trig_slope : List Char) (pre : Int)
    (h : pre < 2 ∨ st._samples < pre + 2) :
    (do_get_input nd st channel average minvol maxvol trigger trig_slope
        pre).2.1 = Except.error () ∧
    (do_get_input nd st channel average minvol maxvol trigger trig_slope
        pre).1._pre_trigger_samples = pre := by
  by_cases h1 : pre < 2
  · constructor <;> simp [do_get_input, h1]
  · have h2 : st._samples < pre + 2 := h.resolve_left h1
    constructor <;> simp [do_get_input, h1, h2]

/-- Witness for C10: calling with `pre_trigger_samples = 0` fails yet
overwrites the stored field with 0. -/
theorem do_get_input_not_atomic_witness :
    (do_get_input testNidaq testState ("ai0".data) true (-10) 10 false
        ("POS".data) 0).2.1 = Except.error () ∧
    (do_get_input testNidaq testState ("ai0".data) true (-10) 10 false
        ("POS".data) 0).1._pre_trigger_samples = 0 :=
  do_get_input_not_atomic testNidaq testState ("ai0".data) true (-10) 10
    false ("POS".data) 0 (Or.inl (by decide))

/-- C3 counterexample: with device `"Dev1"` and a configured source
`"PFI0"`, the `src` actually passed to the vendor `read_counter` is
`"/Dev1/PFI0"` — with a leading slash — which differs from the
`"Dev1/PFI0"` described by the template `"<device>/<source>"` of the
claim. -/
theorem do_get_counter_src_counterexample :
    (do_get_counter testNidaq testState ("ctr0".data)
        (some ("PFI0".data))).2
      = [HWCall.read_counter ("Dev1/ctr0".data) (some ("/Dev1/PFI0".data))
          10] ∧
    ("/Dev1/PFI0".data : List Char) ≠ "Dev1/PFI0".data := by
  refine ⟨?_, by decide⟩
  exact read_counter_call_congr _ _ _ _ _ _ (by decide) (by decide)
    testState_recip_count_time

/-- C3 (amended): `do_get_counter` performs exactly one vendor
`read_counter` call on `"<id>/<channel>"` with frequency the
reciprocal of the configured `_count_time`; an absent (`none`) or
empty source is passed through unchanged (ungated), and a non-empty
source `s` is composed as `"/<id>/<s>"`, with a leading slash. -/
theorem do_get_counter_spec (nd : Nidaq) (st : DAQState)
    (channel : List Char) (srcCache : Option (List Char)) :
    ((srcCache = none ∨ srcCache = some []) →
      (do_get_counter nd st channel srcCache).2
        = [HWCall.read_counter (st._id ++ '/' :: channel) srcCache
            (1 / st._count_time)]) ∧
    (∀ s, srcCache = some s → s ≠ [] →
      (do_get_counter nd st channel srcCache).2
        = [HWCall.read_counter (st._id ++ '/' :: channel)
            (some ('/' :: (st._id ++ '/' :: s))) (1 / st._count_time)]) := by
  constructor
  · rintro (rfl | rfl) <;> simp [do_get_counter]
  · rintro s rfl hs
    simp [do_get_counter, hs]

/-- Witness for the amended C3: an unset source gives an ungated call,
a set source gives a slash-prefixed composed source; the frequency
is the reciprocal `10 = 1 / 0.1` in both. -/
theorem do_get_counter_spec_witness :
    (do_get_counter testNidaq testState ("ctr0".data) none).2
      = [HWCall.read_counter ("Dev1/ctr0".data) none 10] ∧
    (do_get_counter testNidaq testState ("ctr0".data)
        (some ("PFI0".data))).2
      = [HWCall.read_counter ("Dev1/ctr0".data) (some ("/Dev1/PFI0".data))
          10] := by
  constructor
  · have h := (do_get_counter_spec testNidaq testState ("ctr0".data)
      none).1 (Or.inl rfl)
    rw [h]
    exact read_counter_call_congr _ _ _ _ _ _ (by decide) rfl
      testState_recip_count_time
  · have h := (do_get_counter_spec testNidaq testState ("ctr0".data)
      (some ("PFI0".data))).2 ("PFI0".data) rfl (by decide)
    rw [h]
    exact read_counter_call_congr _ _ _ _ _ _ (by decide) (by decide)
      testState_recip_count_time

/-- C7: for every value in the declared `chan_config` option list the
halving branch of `_get_input_channels` is dead: no declared option
equals the literal `"DIFF"`, and the full physical input channel
list is returned unchanged. -/
theorem get_input_channels_no_halving (nd : Nidaq) (st : DAQState)
    (cfg : List Char) (h : cfg ∈ chan_config_option_list) :
    cfg ≠ "DIFF".data ∧
    get_input_channels nd { st with _chan_config := cfg }
      = nd.get_physical_input_channels st._id := by
  have hne : cfg ≠ "DIFF".data := by
    simp only [chan_config_option_list, List.mem_cons,
      List.not_mem_nil, or_false] at h
    rcases h with rfl | rfl | rfl | rfl | rfl <;> decide
  exact ⟨hne, by simp [get_input_channels, hne]⟩

/-- Witness for C7 at the configured default option `"Diff"`. -/
theorem get_input_channels_no_halving_witness :
    ("Diff".data : List Char) ≠ "DIFF".data ∧
    get_input_channels testNidaq
        { testState with _chan_config := "Diff".data }
      = testNidaq.get_physical_input_channels testState._id :=
  get_input_channels_no_halving testNidaq testState ("Diff".data) (by decide)

theorem dictFind_map_apply (F : List Char → PyVal)
    (g : List Char → List Char) (l : List (List Char)) (k : List Char)
    (hk : ∃ ch ∈ l, g ch = k) :
    dictFind (l.map (fun ch => (g ch, F (g ch)))) k = some (F k) := by
  induction l with
  | nil => simp at hk
  | cons a rest ih =>
    by_cases ha : g a = k
    · simp only [List.map_cons, dictFind]
      rw [if_pos ha, ha]
    · rcases hk with ⟨ch, hch, hgk⟩
      rcases List.mem_cons.mp hch with rfl | hm
      · exact absurd hgk ha
      · simp only [List.map_cons, dictFind, if_neg ha]
        exact ih ⟨ch, hm, hgk⟩

theorem seed_loop_ok (nd : Nidaq) (l : List (List Char)) (s : DAQState)
    (h4 : 4 ≤ s._samples) :
    ∃ p, seed_loop nd l s = Except.ok
      { s with
        _output := (l.reverse.map (fun c =>
          (get_channel c,
           PyVal.arr (input_read_value nd s (wired_input (get_channel c))))))
            ++ s._output,
        _pre_trigger_samples := p } := by
  induction l generalizing s with
  | nil => exact ⟨s._pre_trigger_samples, rfl⟩
  | cons ch rest ih =>
    have hnot : ¬ s._samples < 2 + 2 := by omega
    have hr : do_get_input nd s (wired_input (get_channel ch)) true (-10) 10
        false ("POS".data) 2
        = ({ s with _pre_trigger_samples := 2 },
           Except.ok (input_read_value nd s (wired_input (get_channel ch))),
           [HWCall.read (s._id ++ '/' :: wired_input (get_channel ch))
             s._chan_config s._samples s._freq true (-10) 10 false
             ("POS".data) 2]) := by
      simp [do_get_input, input_read_value, h4]
    obtain ⟨p, hp⟩ := ih
      { s with
        _pre_trigger_samples := 2
        _output :=
          (get_channel ch,
              PyVal.arr (input_read_value nd s (wired_input (get_channel ch))))
            :: s._output }
      h4
    refine ⟨p, ?_⟩
    simp only [seed_loop]
    rw [hr]
    refine Eq.trans hp ?_
    refine congrArg Except.ok ?_
    have hl : rest.reverse.map (fun c => (get_channel c,
          PyVal.arr (input_read_value nd s (wired_input (get_channel c)))))
          ++ ((get_channel ch, PyVal.arr (input_read_value nd s
              (wired_input (get_channel ch)))) :: s._output)
        = ((ch :: rest).reverse.map (fun c => (get_channel c,
            PyVal.arr (input_read_value nd s (wired_input (get_channel c))))))
          ++ s._output := by
      simp
    exact congrArg
      (fun X => { s with _output := X, _pre_trigger_samples := p }) hl

/-- C8: whenever the configured sample count admits the default
`do_get_input` call of the constructor (`4 ≤ _samples`), the
seeding loop succeeds, and the output cache entry for each
discovered output channel name is exactly the `do_get_input` result
for the input channel whose name is obtained from it by replacing
every 'o' with 'i', then every '0' with '6', then every '1' with
'7'. -/
theorem seed_output_cache_spec (nd : Nidaq) (st : DAQState)
    (h4 : 4 ≤ st._samples) :
    ∃ st2, seed_output_cache nd st = Except.ok st2 ∧
      ∀ ch ∈ nd.get_physical_output_channels st._id, ∀ vals,
        (do_get_input nd st (wired_input (get_channel ch)) true (-10) 10
            false ("POS".data) 2).2.1 = Except.ok vals →
        dictFind st2._output (get_channel ch) = some (PyVal.arr vals) := by
  obtain ⟨p, hp⟩ := seed_loop_ok nd (nd.get_physical_output_channels st._id)
    { st with _output := [] } h4
  refine ⟨_, hp, ?_⟩
  intro ch hch vals hvals
  have hok : (do_get_input nd st (wired_input (get_channel ch)) true (-10) 10
      false ("POS".data) 2).2.1
      = Except.ok (input_read_value nd st (wired_input (get_channel ch))) := by
    simp only [do_get_input, input_read_value]
    rw [if_neg (show ¬ st._samples < 2 + 2 by omega),
      if_neg (show ¬ (2 : Int) < 2 by omega)]
  have hv : vals = input_read_value nd st (wired_input (get_channel ch)) :=
    (Except.ok.inj (hok.symm.trans hvals)).symm
  rw [hv]
  dsimp only
  rw [List.append_nil]
  exact dictFind_map_apply
    (fun k => PyVal.arr
      (input_read_value nd { st with _output := [] } (wired_input k)))
    get_channel _ _ ⟨ch, List.mem_reverse.mpr hch, rfl⟩

/-- Witness for C8 at the concrete oracle and state: the two output
channels `ao0` and `ao1` are seeded from `ai6` and `ai7`. -/
theorem seed_output_cache_spec_witness :
    ∃ st2, seed_output_cache testNidaq testState = Except.ok st2 ∧
      ∀ ch ∈ testNidaq.get_physical_output_channels testState._id, ∀ vals,
        (do_get_input testNidaq testState (wired_input (get_channel ch)) true
            (-10) 10 false ("POS".data) 2).2.1 = Except.ok vals →
        dictFind st2._output (get_channel ch) = some (PyVal.arr vals) :=
  seed_output_cache_spec testNidaq testState (by decide)

end NIDAQ
